import Mathlib

/-!
Shallow embedding of the `hifzr` repository (a Quran recitation downloader and
playlist builder written in Rust) and verification of its specification.

The embedding follows the source files:
  * `src/hifz.rs`   — verse-spec parsing, ayah detection, playlist synthesis
  * `src/api.rs`    — page fetching with rate-limit backoff, chapter pagination
  * `src/download.rs` — audio URL resolution, materialization, segment sidecars
  * `src/models.rs` — the data model

Machine integers (`u32`) are modelled as `Nat` with explicit `< 2 ^ 32` bounds
where the source's parsing can overflow.  Filesystem state is passed explicitly
as a listing of file names; HTTP traffic is passed explicitly as a response
stream.  All definitions are executable.
-/

namespace Hifzr

/-! ## String-level utilities mirroring the Rust standard library -/

/-- Rust `str::split(sep)` for a one-character separator: splits on every
occurrence of `sep`, keeping empty fragments (so `"a,,b"` gives three parts
and `""` gives one empty part). -/
def splitOnChar (sep : Char) : List Char → List (List Char)
  | [] => [[]]
  | c :: cs =>
    if c = sep then [] :: splitOnChar sep cs
    else
      match splitOnChar sep cs with
      | [] => [[c]]
      | t :: ts => (c :: t) :: ts

/-- Rust `str::trim`: drop whitespace from both ends. -/
def trimChars (cs : List Char) : List Char :=
  ((cs.dropWhile Char.isWhitespace).reverse.dropWhile Char.isWhitespace).reverse

/-- Rust `str::split_once(sep)`: split at the first occurrence of `sep`,
returning `none` when `sep` does not occur. -/
def splitOnceChar (sep : Char) : List Char → Option (List Char × List Char)
  | [] => none
  | c :: cs =>
    if c = sep then some ([], cs)
    else (splitOnceChar sep cs).map (fun p => (c :: p.1, p.2))

/-- Numeric value of a digit string, most significant digit first. -/
def digitsVal (cs : List Char) : Nat :=
  cs.foldl (fun a c => 10 * a + (c.toNat - 48)) 0

/-- Nonempty and all ASCII digits. -/
def isDigits (cs : List Char) : Bool :=
  !cs.isEmpty && cs.all Char.isDigit

/-- Strip one leading `+` (Rust `u32::from_str` accepts an optional sign). -/
def stripPlus (cs : List Char) : List Char :=
  match cs with
  | c :: rest => if c = '+' then rest else c :: rest
  | [] => []

/-- Rust `u32::from_str`: an optional leading `+`, then one or more ASCII
digits, and the value must fit in `u32`; anything else is a parse error. -/
def parseU32 (cs : List Char) : Option Nat :=
  if isDigits (stripPlus cs) = true ∧ digitsVal (stripPlus cs) < 2 ^ 32 then
    some (digitsVal (stripPlus cs))
  else none

/-- Rust `Vec::dedup`: remove consecutive duplicate elements. -/
def dedupAdj : List Nat → List Nat
  | [] => []
  | [a] => [a]
  | a :: b :: t => if a = b then dedupAdj (b :: t) else a :: dedupAdj (b :: t)

/-- The `v.sort_unstable(); v.dedup();` idiom from the source: sort ascending,
then drop consecutive duplicates. -/
def sortDedup (l : List Nat) : List Nat :=
  dedupAdj (List.insertionSort (· ≤ ·) l)

/-! ## Data model (`src/models.rs`) -/

/-- `models.rs` `Pagination`: all fields optional. -/
structure Pagination where
  per_page : Option Nat
  current_page : Option Nat
  next_page : Option Nat
  total_pages : Option Nat
  total_records : Option Nat
  deriving Repr, DecidableEq

/-- `models.rs` `Segment`: a timing segment, with optional word-group/word
indices when the upstream sent a 4-tuple. -/
structure Segment where
  i : Option Nat
  j : Option Nat
  start_ms : Nat
  end_ms : Nat
  deriving Repr, DecidableEq

/-- `models.rs` `Audio`: a URL plus an optional segment list. -/
structure Audio where
  url : String
  segments : Option (List Segment)
  deriving Repr, DecidableEq

/-- `models.rs` `Verse`. -/
structure Verse where
  id : Nat
  verse_number : Nat
  verse_key : String
  hizb_number : Option Nat
  rub_el_hizb_number : Option Nat
  ruku_number : Option Nat
  manzil_number : Option Nat
  sajdah_number : Option Nat
  page_number : Option Nat
  juz_number : Option Nat
  audio : Audio
  deriving Repr, DecidableEq

/-- `models.rs` `ChapterResponse`. -/
structure ChapterResponse where
  verses : List Verse
  pagination : Option Pagination
  deriving Repr, DecidableEq

/-! ## Verse-spec parsing (`src/hifz.rs`, `parse_verses_spec`) -/

/-- One iteration of `parse_verses_spec`'s loop on a trimmed nonempty token:
`split_once('-')` detects a range (both halves parsed by `u32::from_str`,
`low > high` is an error, otherwise the inclusive range is emitted); a token
without `-` is parsed as a single `u32`. -/
def parseToken (t : List Char) : Except String (List Nat) :=
  match splitOnceChar '-' t with
  | some (a, b) =>
    match parseU32 a, parseU32 b with
    | some va, some vb =>
      if va > vb then .error ("bad range: " ++ String.mk t)
      else .ok (List.range' va (vb - va + 1))
    | _, _ => .error ("invalid digit: " ++ String.mk t)
  | none =>
    match parseU32 t with
    | some v => .ok [v]
    | none => .error ("invalid digit: " ++ String.mk t)

/-- The token stream of `parse_verses_spec`:
`spec.split(',').map(str::trim).filter(|s| !s.is_empty())`. -/
def specTokens (spec : String) : List (List Char) :=
  ((splitOnChar ',' spec.data).map trimChars).filter (fun t => !t.isEmpty)

/-- The accumulation loop of `parse_verses_spec`: tokens processed left to
right, failing at the first bad token, concatenating the emitted numbers. -/
def collectTokens : List (List Char) → Except String (List Nat)
  | [] => .ok []
  | t :: ts =>
    match parseToken t with
    | .error e => .error e
    | .ok ns =>
      match collectTokens ts with
      | .error e => .error e
      | .ok rest => .ok (ns ++ rest)

/-- `hifz.rs` `parse_verses_spec`: parse `"1-5,7,10-12"`-style specifications
into a sorted deduplicated list. -/
def parse_verses_spec (spec : String) : Except String (List Nat) :=
  match collectTokens (specTokens spec) with
  | .error e => .error e
  | .ok out => .ok (sortDedup out)

/-! ## Ayah detection (`src/hifz.rs`, `detect_available_ayahs`) -/

/-- Split a character list at its last `'.'`: `some (before, after)` when a
dot occurs, `none` otherwise. -/
def splitLastDot : List Char → Option (List Char × List Char)
  | [] => none
  | c :: cs =>
    match splitLastDot cs with
    | some (pre, post) => some (c :: pre, post)
    | none => if c = '.' then some ([], cs) else none

/-- Rust `Path::file_stem` / `Path::extension` on a bare file name: split at
the last dot, except that a dot at position 0 (a leading-dot hidden file with
no other dot) yields no extension. -/
def fileStemExt (name : List Char) : List Char × Option (List Char) :=
  match name with
  | [] => ([], none)
  | c0 :: rest =>
    match splitLastDot rest with
    | some (pre, post) => (c0 :: pre, some post)
    | none => (c0 :: rest, none)

/-- The body of `detect_available_ayahs`'s loop: a file is detected as verse
`n` exactly when its extension is `mp3` and its stem parses as the `u32` `n`. -/
def verseOf (f : String) : Option Nat :=
  if (fileStemExt f.data).2 = some "mp3".data then parseU32 (fileStemExt f.data).1
  else none

/-- `hifz.rs` `detect_available_ayahs`: scan the directory listing for files
with extension `mp3` whose stem parses as a `u32`, then sort and dedup. -/
def detect_available_ayahs (dirFiles : List String) : List Nat :=
  sortDedup (dirFiles.filterMap verseOf)

/-! ## Playlist synthesis (`src/hifz.rs`) -/

/-- Path join used by the source's `dir.join(name)`. -/
def pathJoin (dir name : String) : String := dir ++ "/" ++ name

/-- The silence clip's deterministic file name `.silence_{gap_ms}ms.mp3`. -/
def silenceName (gap_ms : Nat) : String :=
  ".silence_" ++ toString gap_ms ++ "ms.mp3"

/-- `hifz.rs` `ensure_silence_mp3`: `none` for a zero gap; reuse the clip when
it already exists; otherwise generate it with ffmpeg, returning `none` when
the tool fails or is unavailable (`ffmpegOk = false`). -/
def ensure_silence_mp3 (out_root : String) (dirFiles : List String)
    (ffmpegOk : Bool) (gap_ms : Nat) : Option String :=
  if gap_ms = 0 then none
  else if silenceName gap_ms ∈ dirFiles then some (pathJoin out_root (silenceName gap_ms))
  else if ffmpegOk then some (pathJoin out_root (silenceName gap_ms))
  else none

/-- Rust `format!("{:03}", n)`: decimal, zero-padded to width 3. -/
def pad3 (n : Nat) : String :=
  let s := toString n
  if s.length < 3 then String.mk (List.replicate (3 - s.length) '0') ++ s else s

/-- The per-verse audio file name `NNN.mp3`. -/
def mp3Name (n : Nat) : String := pad3 n ++ ".mp3"

/-- The lines `build_ayah_playlist` writes for one present ayah: `repeatN`
copies of its file, a silence line between consecutive repeats when the gap
exceeds 500 ms and a clip is available, and one more silence line after the
final repeat under the same condition. -/
def ayahLines (mp3Path : String) (silence : Option String)
    (gap_ms repeatN : Nat) : List String :=
  ((List.range repeatN).map (fun r =>
    [mp3Path] ++
      (match silence with
       | some s => if 500 < gap_ms ∧ r + 1 < repeatN then [s] else []
       | none => []))).flatten ++
  (match silence with
   | some s => if 500 < gap_ms then [s] else []
   | none => [])

/-- The main loop of `build_ayah_playlist` over the selected ayahs: a missing
file is skipped with a warning (collected in the second component); a present
file contributes its `ayahLines`. -/
def playlistBody (out_root : String) (dirFiles : List String)
    (silence : Option String) (gap_ms repeatN : Nat) :
    List Nat → List String × List Nat
  | [] => ([], [])
  | ayah :: rest =>
    let r := playlistBody out_root dirFiles silence gap_ms repeatN rest
    if mp3Name ayah ∈ dirFiles then
      (ayahLines (pathJoin out_root (mp3Name ayah)) silence gap_ms repeatN ++ r.1, r.2)
    else (r.1, ayah :: r.2)

/-- The observable outcome of `build_ayah_playlist`: the returned playlist
path, the lines written to it (header first), the ayahs skipped with a
warning, and the pointer file written last. -/
structure BuildResult where
  m3u : String
  lines : List String
  skipped : List Nat
  pointerFile : String
  pointerContents : String
  deriving Repr, DecidableEq

/-- `hifz.rs` `build_ayah_playlist`: select verses (explicit spec parsed, or
directory scan), obtain the silence clip, write the `#EXTM3U` header and the
body, then write the pointer file and return the playlist path. -/
def build_ayah_playlist (out_root : String) (dirFiles : List String)
    (ffmpegOk : Bool) (verses : Option String) (repeatN gap_ms : Nat) :
    Except String BuildResult :=
  match (match verses with
         | some spec => parse_verses_spec spec
         | none => .ok (detect_available_ayahs dirFiles)) with
  | .error e => .error e
  | .ok list =>
    let silence := ensure_silence_mp3 out_root dirFiles ffmpegOk gap_ms
    let m3u := pathJoin out_root "hifz_ayah.m3u"
    let body := playlistBody out_root dirFiles silence gap_ms repeatN list
    .ok { m3u := m3u
          lines := "#EXTM3U" :: body.1
          skipped := body.2
          pointerFile := pathJoin out_root "latest_playlist.txt"
          pointerContents := m3u }

/-! ## Page fetching with backoff (`src/api.rs`, `get_page`) -/

def BASE : String := "https://api.quran.com/api/v4"

/-- `api.rs` `ChapterQuery`. -/
structure ChapterQuery where
  audio : Nat
  page : Option Nat
  per_page : Option Nat
  words : Option Bool
  fields : Option String
  deriving Repr, DecidableEq

/-- One `client.get(url).query(pq).send()` as observed by `get_page`: a
transport failure, or a response carrying an HTTP status and a body that
either decodes as a `ChapterResponse` (`some`) or does not (`none`). -/
inductive SendResult where
  | sendFail
  | respond (status : Nat) (body : Option ChapterResponse)
  deriving Repr, DecidableEq

/-- The error paths of `get_page`, one constructor per `context` site in the
source: transport failure (`send failed`), non-success HTTP status
(`HTTP {status} for {url}` via `error_for_status`), and decode failure. -/
inductive FetchError where
  | sendFailed (url : String)
  | httpStatus (status : Nat) (url : String)
  | decodeFailed
  deriving Repr, DecidableEq

/-- The retry loop of `api.rs` `get_page`, from retry counter `tries`.
`resps i` is the outcome of the `i`-th request (the code issues one request
per iteration, so the request index equals the current value of `tries`).
Returns the list of backoff sleeps performed, in milliseconds and in order,
together with the result: on a 429 status with `tries < 5` the code sleeps
`250 * 2^tries` ms and retries; any other non-success status (or a 429 with
the budget exhausted) fails through `error_for_status`; a success status is
decoded. -/
def get_page_go (resps : Nat → SendResult) (url : String) (tries : Nat) :
    List Nat × Except FetchError ChapterResponse :=
  match resps tries with
  | .sendFail => ([], .error (.sendFailed url))
  | .respond status body =>
    if h : status = 429 ∧ tries < 5 then
      let r := get_page_go resps url (tries + 1)
      (250 * 2 ^ tries :: r.1, r.2)
    else if 400 ≤ status ∧ status < 600 then ([], .error (.httpStatus status url))
    else
      match body with
      | some cr => ([], .ok cr)
      | none => ([], .error .decodeFailed)
  termination_by 5 - tries
  decreasing_by omega

/-- `api.rs` `get_page`: the retry loop started with `tries = 0`. -/
def get_page (resps : Nat → SendResult) (url : String) :
    List Nat × Except FetchError ChapterResponse :=
  get_page_go resps url 0

/-! ## Chapter pagination (`src/api.rs`, `fetch_chapter`) -/

def fieldsSpec : String :=
  "juz_number,hizb_number,verse_key,verse_number,rub_el_hizb_number"

/-- The URL `fetch_chapter` requests for a chapter. -/
def chapterUrl (chapter : Nat) : String :=
  BASE ++ "/verses/by_chapter/" ++ toString chapter

/-- The query `fetch_chapter` builds for one page: page size 50, word data
disabled, a fixed field projection. -/
def chapterQuery (audio page : Nat) : ChapterQuery :=
  { audio := audio
    page := some page
    per_page := some 50
    words := some false
    fields := some fieldsSpec }

/-- The page loop of `api.rs` `fetch_chapter`.  `fetch` abstracts a
successful `get_page` (the upstream's response to a given URL and query);
`fuel` bounds the number of iterations, with `none` meaning the fuel ran out
(the Rust loop would still be running).  Returns the queries issued, in
order, and the accumulated verse list: a page with an empty verse list stops
immediately with the accumulator; otherwise the verses are appended and the
loop continues exactly when `pagination.and_then(next_page)` is `Some`. -/
def fetch_chapter_go (fetch : String → ChapterQuery → ChapterResponse)
    (audio chapter : Nat) :
    Nat → Nat → List Verse → List ChapterQuery × Option (List Verse)
  | 0, _, _ => ([], none)
  | fuel + 1, page, acc =>
    let parsed := fetch (chapterUrl chapter) (chapterQuery audio page)
    if parsed.verses.isEmpty then ([chapterQuery audio page], some acc)
    else
      match parsed.pagination.bind Pagination.next_page with
      | some next =>
        let r := fetch_chapter_go fetch audio chapter fuel next (acc ++ parsed.verses)
        (chapterQuery audio page :: r.1, r.2)
      | none => ([chapterQuery audio page], some (acc ++ parsed.verses))

/-- `api.rs` `fetch_chapter`: the page loop started at page 1 with an empty
accumulator. -/
def fetch_chapter (fetch : String → ChapterQuery → ChapterResponse)
    (audio chapter fuel : Nat) : List ChapterQuery × Option (List Verse) :=
  fetch_chapter_go fetch audio chapter fuel 1 []

/-! ## Audio materialization (`src/download.rs`) -/

def CDN : String := "https://audio.qurancdn.com/"

/-- `download.rs` `resolve_audio_url`: a URL starting with `http` is used
as-is; anything else is appended to the CDN root after stripping leading
slashes (`trim_start_matches('/')`). -/
def resolve_audio_url (u : String) : String :=
  if "http".data.isPrefixOf u.data then u
  else CDN ++ String.mk (u.data.dropWhile (fun c => c = '/'))

/-- The sidecar computation in `run_filter`: keep the segments with
`end_ms > start_ms` as `(start_ms, end_ms)` pairs, in order; a verse with no
segment list yields the empty array. -/
def segPairs (segments : Option (List Segment)) : List (Nat × Nat) :=
  match segments with
  | some segs =>
    segs.filterMap (fun s =>
      if s.start_ms < s.end_ms then some (s.start_ms, s.end_ms) else none)
  | none => []

/-- Name of the sidecar file `NNN.segments.json`. -/
def segName (n : Nat) : String := pad3 n ++ ".segments.json"

/-- The `only_verses` filter at the top of `run_filter`'s loop: skip the
verse when a wanted-set is given and does not contain its number. -/
def wantedSkip (wanted : Option (List Nat)) (n : Nat) : Bool :=
  match wanted with
  | some w => !w.contains n
  | none => false

/-- The per-run trace of `run_filter`: the URLs downloaded and the sidecar
writes `(file name, pairs)` performed, in verse order. -/
structure RunTrace where
  downloads : List String
  segWrites : List (String × List (Nat × Nat))
  deriving Repr, DecidableEq

/-- The verse loop of `download.rs` `run_filter`.  `dirFiles` is the
directory listing at the start of the run (the loop only creates files it
never re-checks for distinct verse numbers); `httpOk url` tells whether the
audio GET for `url` succeeds with a success status.  A verse outside the
wanted set is skipped entirely; otherwise the download runs exactly when
`force` is set or the destination file is missing, a failed GET aborts the
whole run, and the sidecar is always recomputed and written. -/
def run_filter_go (dirFiles : List String) (httpOk : String → Bool)
    (force : Bool) (wanted : Option (List Nat)) :
    List Verse → Except String RunTrace
  | [] => .ok ⟨[], []⟩
  | v :: rest =>
    if wantedSkip wanted v.verse_number then
      run_filter_go dirFiles httpOk force wanted rest
    else
      let needDl := force || !(dirFiles.contains (mp3Name v.verse_number))
      let url := resolve_audio_url v.audio.url
      if needDl && !httpOk url then .error ("GET " ++ url)
      else
        match run_filter_go dirFiles httpOk force wanted rest with
        | .error e => .error e
        | .ok t =>
          .ok ⟨(if needDl then [url] else []) ++ t.downloads,
               (segName v.verse_number, segPairs v.audio.segments) :: t.segWrites⟩

/-- `download.rs` `run_filter`, restricted to its materialization loop (the
chapter fetch that produces `verses` is `fetch_chapter`). -/
def run_filter (verses : List Verse) (dirFiles : List String)
    (httpOk : String → Bool) (force : Bool) (only_verses : Option (List Nat)) :
    Except String RunTrace :=
  run_filter_go dirFiles httpOk force only_verses verses

/-! ## Token shapes of the verse-spec grammar -/

/-- A single-integer token: one or more digits whose value fits in `u32`. -/
def natToken (t : List Char) : Bool :=
  isDigits t && decide (digitsVal t < 2 ^ 32)

/-- An in-order range token `low-high`: digits, a dash, digits, both values
fitting in `u32`, with `low ≤ high`. -/
def rangeToken (t : List Char) : Bool :=
  match splitOnceChar '-' t with
  | some (a, b) => natToken a && natToken b && decide (digitsVal a ≤ digitsVal b)
  | none => false

/-- A well-formed token of the specification grammar. -/
def goodToken (t : List Char) : Bool :=
  natToken t || rangeToken t

/-- A reversed range token `low-high` with `low > high`. -/
def badRangeToken (t : List Char) : Bool :=
  match splitOnceChar '-' t with
  | some (a, b) => natToken a && natToken b && decide (digitsVal b < digitsVal a)
  | none => false

/-- The integers covered by one well-formed token: the inclusive range for a
range token, the single value otherwise. -/
def tokenVals (t : List Char) : List Nat :=
  match splitOnceChar '-' t with
  | some (a, b) => List.range' (digitsVal a) (digitsVal b - digitsVal a + 1)
  | none => [digitsVal t]

/-! ## Spec-side definition for URL resolution -/

/-- A character allowed inside a URI scheme after the first. -/
def schemeChar (c : Char) : Bool :=
  c.isAlphanum || c = '+' || c = '-' || c = '.'

/-- Modelled from the spec: "if it already has a scheme, use as-is".  A URL
has a scheme (RFC 3986) when it starts with a letter followed by
letters/digits/`+`/`-`/`.` and then a `:`.  This is the spec's notion, to be
compared with the source's `starts_with("http")` test. -/
def hasScheme (u : String) : Bool :=
  match u.data with
  | [] => false
  | c :: _ =>
    c.isAlpha &&
      (match u.data.dropWhile schemeChar with
       | ':' :: _ => true
       | _ => false)

/-- A sample verse record used to instantiate theorems on concrete inputs. -/
def sampleVerse : Verse :=
  ⟨1, 1, "1:1", none, none, none, none, none, none, none, ⟨"a.mp3", none⟩⟩

/-! # Theorems

First the library-style lemmas about the sorting and parsing building blocks,
then one theorem per claim. -/

theorem mem_dedupAdj : ∀ (l : List Nat) (x : Nat), x ∈ dedupAdj l ↔ x ∈ l
  | [], x => by simp [dedupAdj]
  | [a], x => by simp [dedupAdj]
  | a :: b :: t, x => by
    by_cases h : a = b
    · subst h
      simp [dedupAdj, mem_dedupAdj (a :: t) x]
    · simp [dedupAdj, h, mem_dedupAdj (b :: t) x]

theorem sorted_dedupAdj :
    ∀ {l : List Nat}, l.Sorted (· ≤ ·) → (dedupAdj l).Sorted (· < ·)
  | [], _ => by simp [dedupAdj]
  | [a], _ => by simp [dedupAdj]
  | a :: b :: t, h => by
    have htail : (b :: t).Sorted (· ≤ ·) := h.of_cons
    by_cases hab : a = b
    · subst hab
      simpa [dedupAdj] using sorted_dedupAdj htail
    · have hrec := sorted_dedupAdj htail
      have hhead : ∀ x ∈ dedupAdj (b :: t), a < x := by
        intro x hx
        have hxm : x ∈ b :: t := (mem_dedupAdj _ _).mp hx
        have halb : a ≤ b := List.rel_of_sorted_cons h b (List.mem_cons_self _ _)
        have haltb : a < b := lt_of_le_of_ne halb hab
        rcases List.mem_cons.mp hxm with hxb | hxt
        · exact hxb ▸ haltb
        · exact lt_of_lt_of_le haltb (List.rel_of_sorted_cons htail x hxt)
      simpa [dedupAdj, hab, List.sorted_cons] using ⟨hhead, hrec⟩

theorem mem_sortDedup (l : List Nat) (x : Nat) : x ∈ sortDedup l ↔ x ∈ l := by
  rw [sortDedup, mem_dedupAdj]
  exact (List.perm_insertionSort (· ≤ ·) l).mem_iff

theorem sorted_sortDedup (l : List Nat) : (sortDedup l).Sorted (· < ·) :=
  sorted_dedupAdj (List.sorted_insertionSort (· ≤ ·) l)

theorem stripPlus_digits {cs : List Char} (h : isDigits cs = true) :
    stripPlus cs = cs := by
  match cs with
  | [] => rfl
  | c :: r =>
    have hc : c.isDigit = true := by
      simp [isDigits] at h
      exact h.1
    have hne : ¬ c = '+' := by
      intro he
      subst he
      exact absurd hc (by decide)
    simp [stripPlus, hne]

theorem parseU32_digits {t : List Char} (h1 : isDigits t = true)
    (h2 : digitsVal t < 2 ^ 32) : parseU32 t = some (digitsVal t) := by
  rw [parseU32, stripPlus_digits h1, if_pos ⟨h1, h2⟩]

theorem parseU32_of_natToken {t : List Char} (h : natToken t = true) :
    parseU32 t = some (digitsVal t) := by
  rw [natToken, Bool.and_eq_true, decide_eq_true_eq] at h
  exact parseU32_digits h.1 h.2

theorem splitOnceChar_eq_none {sep : Char} :
    ∀ {cs : List Char}, (∀ c ∈ cs, ¬ c = sep) → splitOnceChar sep cs = none
  | [], _ => rfl
  | c :: cs, h => by
    have hc : ¬ c = sep := h c (List.mem_cons_self _ _)
    have ht := splitOnceChar_eq_none (fun x hx => h x (List.mem_cons_of_mem _ hx))
    simp [splitOnceChar, hc, ht]

theorem digits_no_dash {t : List Char} (h : isDigits t = true) :
    ∀ c ∈ t, ¬ c = '-' := by
  intro c hc he
  subst he
  rw [isDigits, Bool.and_eq_true, List.all_eq_true] at h
  exact absurd (h.2 _ hc) (by decide)

theorem natToken_no_dash {t : List Char} (h : natToken t = true) :
    splitOnceChar '-' t = none := by
  rw [natToken, Bool.and_eq_true] at h
  exact splitOnceChar_eq_none (digits_no_dash h.1)

theorem parseToken_good {t : List Char} (h : goodToken t = true) :
    parseToken t = .ok (tokenVals t) := by
  rw [goodToken, Bool.or_eq_true] at h
  rcases h with h | h
  · rw [parseToken, tokenVals, natToken_no_dash h, parseU32_of_natToken h]
  · rw [rangeToken] at h
    rcases hsp : splitOnceChar '-' t with _ | ⟨a, b⟩
    · rw [hsp] at h
      exact absurd h (by simp)
    · rw [hsp] at h
      rw [Bool.and_eq_true, Bool.and_eq_true, decide_eq_true_eq] at h
      obtain ⟨⟨ha, hb⟩, hle⟩ := h
      simp only [parseToken, tokenVals, hsp, parseU32_of_natToken ha,
        parseU32_of_natToken hb]
      rw [if_neg (by omega)]

theorem parseToken_badRange {t : List Char} (h : badRangeToken t = true) :
    ∃ e, parseToken t = .error e := by
  rw [badRangeToken] at h
  rcases hsp : splitOnceChar '-' t with _ | ⟨a, b⟩
  · rw [hsp] at h
    exact absurd h (by simp)
  · rw [hsp] at h
    rw [Bool.and_eq_true, Bool.and_eq_true, decide_eq_true_eq] at h
    obtain ⟨⟨ha, hb⟩, hlt⟩ := h
    refine ⟨"bad range: " ++ String.mk t, ?_⟩
    simp only [parseToken, hsp, parseU32_of_natToken ha, parseU32_of_natToken hb]
    rw [if_pos (by omega)]

theorem collectTokens_good :
    ∀ {ts : List (List Char)}, (∀ t ∈ ts, goodToken t = true) →
      collectTokens ts = .ok (ts.flatMap tokenVals)
  | [], _ => rfl
  | t :: ts, h => by
    have hh := parseToken_good (h t (List.mem_cons_self _ _))
    have ht := collectTokens_good (fun x hx => h x (List.mem_cons_of_mem _ hx))
    simp [collectTokens, hh, ht]

theorem collectTokens_bad :
    ∀ {ts : List (List Char)}, (∃ t ∈ ts, badRangeToken t = true) →
      ∃ e, collectTokens ts = .error e
  | [], h => absurd h (by simp)
  | t :: ts, h => by
    rcases hp : parseToken t with e | ns
    · exact ⟨e, by simp [collectTokens, hp]⟩
    · rcases h with ⟨u, hu, hbad⟩
      rcases List.mem_cons.mp hu with rfl | hut
      · obtain ⟨e, he⟩ := parseToken_badRange hbad
        rw [hp] at he
        exact absurd he (by simp)
      · obtain ⟨e, he⟩ := collectTokens_bad ⟨u, hut, hbad⟩
        exact ⟨e, by simp [collectTokens, hp, he]⟩

theorem mem_tokenVals_range {t : List Char} {n : Nat} {a b : List Char}
    (hsp : splitOnceChar '-' t = some (a, b))
    (hle : digitsVal a ≤ digitsVal b) :
    (n ∈ tokenVals t ↔ digitsVal a ≤ n ∧ n ≤ digitsVal b) := by
  rw [tokenVals, hsp, List.mem_range']
  constructor
  · rintro ⟨i, hi, rfl⟩
    omega
  · intro hn
    exact ⟨n - digitsVal a, by omega, by omega⟩

/-- C4: for a specification string whose trimmed nonempty tokens are each a
single `u32` integer or an in-order `low-high` range, parsing succeeds with
the strictly sorted (hence deduplicated) list whose members are exactly the
covered integers; `"1-3,5,7-8"` parses to `[1,2,3,5,7,8]`; and any
specification containing a reversed range token fails with an error. -/
theorem parse_verses_spec_correct (spec bad : String)
    (hgood : ∀ t ∈ specTokens spec, goodToken t = true)
    (hbad : ∃ t ∈ specTokens bad, badRangeToken t = true) :
    (∃ l, parse_verses_spec spec = .ok l ∧ l.Sorted (· < ·) ∧
       (∀ n, n ∈ l ↔ ∃ t ∈ specTokens spec, n ∈ tokenVals t)) ∧
    (∃ e, parse_verses_spec bad = .error e) ∧
    parse_verses_spec "1-3,5,7-8" = .ok [1, 2, 3, 5, 7, 8] := by
  refine ⟨?_, ?_, rfl⟩
  · refine ⟨sortDedup (((specTokens spec).flatMap tokenVals)), ?_,
      sorted_sortDedup _, ?_⟩
    · rw [parse_verses_spec, collectTokens_good hgood]
    · intro n
      rw [mem_sortDedup, List.mem_flatMap]
  · obtain ⟨e, he⟩ := collectTokens_bad hbad
    exact ⟨e, by rw [parse_verses_spec, he]⟩

/-- C4 witness: the theorem applied to `"1-3,5,7-8"` (all tokens good) and
`"5-2"` (a reversed range). -/
theorem parse_verses_spec_correct_witness :
    (∃ l, parse_verses_spec "1-3,5,7-8" = .ok l ∧ l.Sorted (· < ·) ∧
       (∀ n, n ∈ l ↔ ∃ t ∈ specTokens "1-3,5,7-8", n ∈ tokenVals t)) ∧
    (∃ e, parse_verses_spec "5-2" = .error e) ∧
    parse_verses_spec "1-3,5,7-8" = .ok [1, 2, 3, 5, 7, 8] :=
  parse_verses_spec_correct "1-3,5,7-8" "5-2"
    (by decide) (by decide)

/-- C6: the sidecar content is exactly the in-order subsequence of segments
with `end_ms > start_ms`, each encoded as a `(start_ms, end_ms)` pair: a
zero-length segment like `[100,100]` is dropped, `[100,250]` is kept, and a
verse with no segment list yields the empty array. -/
theorem segPairs_spec (segs : List Segment) :
    segPairs (some segs) =
      (segs.filter (fun s => decide (s.start_ms < s.end_ms))).map
        (fun s => (s.start_ms, s.end_ms)) ∧
    segPairs none = [] ∧
    segPairs (some [⟨none, none, 100, 100⟩]) = [] ∧
    segPairs (some [⟨none, none, 100, 250⟩]) = [(100, 250)] := by
  refine ⟨?_, rfl, rfl, rfl⟩
  induction segs with
  | nil => rfl
  | cons s t ih =>
    by_cases h : s.start_ms < s.end_ms <;>
      simp_all [segPairs, List.filterMap_cons, List.filter_cons]

/-- C8 counterexample: `"ftp://x"` already has a scheme, yet resolution does
not return it unchanged — the source tests `starts_with("http")`, not the
presence of a scheme. -/
theorem resolve_audio_url_counterexample :
    hasScheme "ftp://x" = true ∧
    resolve_audio_url "ftp://x" ≠ "ftp://x" ∧
    resolve_audio_url "ftp://x" = "https://audio.qurancdn.com/ftp://x" :=
  ⟨by decide, by decide, rfl⟩

theorem isPrefixOf_append_right :
    ∀ {p a : List Char} (b : List Char),
      List.isPrefixOf p a = true → List.isPrefixOf p (a ++ b) = true
  | [], _, _, _ => by simp [List.isPrefixOf]
  | x :: xs, [], b, h => by simp [List.isPrefixOf] at h
  | x :: xs, y :: ys, b, h => by
    simp only [List.cons_append, List.isPrefixOf, Bool.and_eq_true] at h ⊢
    exact ⟨h.1, isPrefixOf_append_right b h.2⟩

/-- C8 (amended): resolution returns the string unchanged iff it starts with
`"http"`; otherwise it returns the fixed CDN root followed by the string with
its leading slashes stripped. -/
theorem resolve_audio_url_spec (u : String) :
    (resolve_audio_url u = u ↔ "http".data.isPrefixOf u.data = true) ∧
    (¬ "http".data.isPrefixOf u.data = true →
      resolve_audio_url u =
        CDN ++ String.mk (u.data.dropWhile (fun c => c = '/'))) := by
  constructor
  · constructor
    · intro hres
      by_contra hpre
      rw [resolve_audio_url, if_neg hpre] at hres
      apply hpre
      rw [← hres, String.data_append]
      exact isPrefixOf_append_right _ (by decide)
    · intro hpre
      rw [resolve_audio_url, if_pos hpre]
  · intro hpre
    rw [resolve_audio_url, if_neg hpre]

/-- C8 witness: a scheme-less relative URL is resolved against the CDN
root. -/
theorem resolve_audio_url_spec_witness :
    resolve_audio_url "verses/1.mp3" =
      CDN ++ String.mk ("verses/1.mp3".data.dropWhile (fun c => c = '/')) :=
  (resolve_audio_url_spec "verses/1.mp3").2 (by decide)

theorem splitLastDot_eq_none :
    ∀ {cs : List Char}, '.' ∉ cs → splitLastDot cs = none
  | [], _ => rfl
  | c :: cs, h => by
    have hc : ¬ c = '.' := fun he => h (he ▸ List.mem_cons_self _ _)
    have ht := splitLastDot_eq_none (fun hm => h (List.mem_cons_of_mem _ hm))
    simp [splitLastDot, ht, hc]

theorem splitLastDot_append {ys : List Char} (hys : '.' ∉ ys) :
    ∀ xs : List Char, splitLastDot (xs ++ '.' :: ys) = some (xs, ys)
  | [] => by simp [splitLastDot, splitLastDot_eq_none hys]
  | x :: xs => by simp [splitLastDot, splitLastDot_append hys xs]

/-- The stem/extension split of a name `x xs . ys` whose final dot is not at
position 0 and whose extension part has no further dot. -/
theorem fileStemExt_last (x : Char) (xs ys : List Char) (hys : '.' ∉ ys) :
    fileStemExt (x :: (xs ++ '.' :: ys)) = (x :: xs, some ys) := by
  simp [fileStemExt, splitLastDot_append hys]

theorem parseU32_dot_cons (xs : List Char) : parseU32 ('.' :: xs) = none := by
  have h1 : stripPlus ('.' :: xs) = '.' :: xs := by simp [stripPlus]
  have hd : ('.' : Char).isDigit = false := by decide
  have h2 : isDigits ('.' :: xs) = false := by simp [isDigits, hd]
  rw [parseU32, h1, h2]
  simp

theorem verseOf_eq_some {f : String} {n : Nat} :
    verseOf f = some n ↔
      (fileStemExt f.data).2 = some "mp3".data ∧
        parseU32 (fileStemExt f.data).1 = some n := by
  rw [verseOf]
  split
  · rename_i h
    simp [h]
  · rename_i h
    simp [h]

theorem verseOf_silenceName (gap_ms : Nat) : verseOf (silenceName gap_ms) = none := by
  have hms : "ms.mp3".data = "ms".data ++ '.' :: "mp3".data := rfl
  have hdata : (silenceName gap_ms).data =
      '.' :: ((("silence_".data ++ (toString gap_ms).data) ++ "ms".data) ++
        '.' :: "mp3".data) := by
    rw [silenceName, String.data_append, String.data_append, hms]
    simp [List.append_assoc]
  rw [verseOf, hdata, fileStemExt_last _ _ _ (by decide)]
  simp [parseU32_dot_cons]

theorem verseOf_segName (k : Nat) : verseOf (segName k) = none := by
  have hsj : ".segments.json".data =
      ('.' :: "segments".data) ++ '.' :: "json".data := rfl
  have hjson : ¬ ("json".data = "mp3".data) := by decide
  rcases hp : (pad3 k).data with _ | ⟨c, cs⟩
  · have hdata : (segName k).data =
        '.' :: ("segments".data ++ '.' :: "json".data) := by
      rw [segName, String.data_append, hp, List.nil_append, hsj]
      rfl
    rw [verseOf, hdata, fileStemExt_last _ _ _ (by decide)]
    simp [hjson]
  · have hdata : (segName k).data =
        c :: ((cs ++ '.' :: "segments".data) ++ '.' :: "json".data) := by
      rw [segName, String.data_append, hp, hsj]
      simp [List.append_assoc]
    rw [verseOf, hdata, fileStemExt_last _ _ _ (by decide)]
    simp [hjson]

/-- C10: auto-detection returns the strictly ascending (hence deduplicated)
list of exactly those `n` for which the directory has a file with extension
`mp3` whose stem parses as the `u32` value `n`; the generated silence clip
(for every gap), every sidecar file, the playlist file and the pointer file
are never detected as verses. -/
theorem detect_available_ayahs_correct (dirFiles : List String) :
    (detect_available_ayahs dirFiles).Sorted (· < ·) ∧
    (∀ n, n ∈ detect_available_ayahs dirFiles ↔
      ∃ f ∈ dirFiles, (fileStemExt f.data).2 = some "mp3".data ∧
        parseU32 (fileStemExt f.data).1 = some n) ∧
    (∀ gap_ms, verseOf (silenceName gap_ms) = none) ∧
    (∀ k, verseOf (segName k) = none) ∧
    verseOf "hifz_ayah.m3u" = none ∧
    verseOf "latest_playlist.txt" = none ∧
    verseOf "007.mp3" = some 7 := by
  refine ⟨sorted_sortDedup _, ?_, verseOf_silenceName, verseOf_segName,
    by decide, by decide, by decide⟩
  intro n
  rw [detect_available_ayahs, mem_sortDedup, List.mem_filterMap]
  constructor
  · rintro ⟨f, hf, hv⟩
    exact ⟨f, hf, verseOf_eq_some.mp hv⟩
  · rintro ⟨f, hf, hv⟩
    exact ⟨f, hf, verseOf_eq_some.mpr hv⟩

/-- C1: with verses `[1,2]` both present, `repeat_count = 2` and
`gap_ms = 1000` (silence clip obtained), the lines after the `#EXTM3U` header
are verse 1, silence, verse 1, silence, verse 2, silence, verse 2, silence —
silence between consecutive repeats and one after each verse's final repeat;
with `gap_ms = 200` (at or below the 500 ms threshold) no silence entries
appear at all. -/
theorem build_ayah_playlist_ordering :
    build_ayah_playlist "d" ["001.mp3", "002.mp3"] true (some "1,2") 2 1000 =
      .ok { m3u := "d/hifz_ayah.m3u"
            lines := ["#EXTM3U",
              "d/001.mp3", "d/.silence_1000ms.mp3",
              "d/001.mp3", "d/.silence_1000ms.mp3",
              "d/002.mp3", "d/.silence_1000ms.mp3",
              "d/002.mp3", "d/.silence_1000ms.mp3"]
            skipped := []
            pointerFile := "d/latest_playlist.txt"
            pointerContents := "d/hifz_ayah.m3u" } ∧
    build_ayah_playlist "d" ["001.mp3", "002.mp3"] true (some "1,2") 2 200 =
      .ok { m3u := "d/hifz_ayah.m3u"
            lines := ["#EXTM3U", "d/001.mp3", "d/001.mp3", "d/002.mp3", "d/002.mp3"]
            skipped := []
            pointerFile := "d/latest_playlist.txt"
            pointerContents := "d/hifz_ayah.m3u" } :=
  ⟨rfl, rfl⟩

theorem playlistBody_eq (out_root : String) (dirFiles : List String)
    (silence : Option String) (gap_ms repeatN : Nat) :
    ∀ l : List Nat,
      playlistBody out_root dirFiles silence gap_ms repeatN l =
        ((l.map (fun a =>
            if mp3Name a ∈ dirFiles then
              ayahLines (pathJoin out_root (mp3Name a)) silence gap_ms repeatN
            else [])).flatten,
         l.filter (fun a => decide (mp3Name a ∉ dirFiles)))
  | [] => rfl
  | a :: l => by
    by_cases h : mp3Name a ∈ dirFiles <;>
      simp [playlistBody, playlistBody_eq out_root dirFiles silence gap_ms repeatN l, h]

theorem flatten_map_singleton {α : Type} (x : α) :
    ∀ n : Nat, ((List.range n).map (fun _ => [x])).flatten = List.replicate n x := by
  intro n
  induction n with
  | zero => rfl
  | succ k ih =>
    rw [List.range_succ, List.map_append, List.flatten_append, ih,
      List.replicate_succ']
    simp

theorem ayahLines_none (mp3Path : String) (gap_ms repeatN : Nat) :
    ayahLines mp3Path none gap_ms repeatN = List.replicate repeatN mp3Path := by
  have h : ayahLines mp3Path none gap_ms repeatN =
      ((List.range repeatN).map (fun _ => [mp3Path])).flatten ++ [] := rfl
  rw [h, List.append_nil, flatten_map_singleton]

theorem ayahLines_zero_some {gap_ms : Nat} (hgap : 500 < gap_ms) (p s : String) :
    ayahLines p (some s) gap_ms 0 = [s] := by
  simp [ayahLines, hgap]

/-- C9: with `repeat_count = 0`, a gap above 500 ms and a silence clip
obtained, every selected verse whose audio file exists contributes zero audio
entries but exactly one silence entry, so the playlist is the header followed
only by silence references (missing verses are skipped as usual). -/
theorem build_ayah_playlist_zero_repeats (out_root sp s : String)
    (dirFiles : List String) (ffmpegOk : Bool) (gap_ms : Nat) (l : List Nat)
    (hparse : parse_verses_spec sp = .ok l)
    (hgap : 500 < gap_ms)
    (hsil : ensure_silence_mp3 out_root dirFiles ffmpegOk gap_ms = some s) :
    build_ayah_playlist out_root dirFiles ffmpegOk (some sp) 0 gap_ms =
      .ok { m3u := pathJoin out_root "hifz_ayah.m3u"
            lines := "#EXTM3U" ::
              (l.map (fun a => if mp3Name a ∈ dirFiles then [s] else [])).flatten
            skipped := l.filter (fun a => decide (mp3Name a ∉ dirFiles))
            pointerFile := pathJoin out_root "latest_playlist.txt"
            pointerContents := pathJoin out_root "hifz_ayah.m3u" } := by
  simp only [build_ayah_playlist, hparse, hsil, playlistBody_eq,
    ayahLines_zero_some hgap]

/-- C9 witness: directory with verse 1 only, selection `"1,2"`, gap 1000 ms. -/
theorem build_ayah_playlist_zero_repeats_witness :
    build_ayah_playlist "d" ["001.mp3"] true (some "1,2") 0 1000 =
      .ok { m3u := pathJoin "d" "hifz_ayah.m3u"
            lines := "#EXTM3U" ::
              (([1, 2] : List Nat).map (fun a =>
                if mp3Name a ∈ ["001.mp3"] then ["d/.silence_1000ms.mp3"] else [])).flatten
            skipped := ([1, 2] : List Nat).filter
              (fun a => decide (mp3Name a ∉ ["001.mp3"]))
            pointerFile := pathJoin "d" "latest_playlist.txt"
            pointerContents := pathJoin "d" "hifz_ayah.m3u" } :=
  build_ayah_playlist_zero_repeats "d" "1,2" "d/.silence_1000ms.mp3"
    ["001.mp3"] true 1000 [1, 2] rfl (by decide) rfl

/-- C7: the two soft-failure paths of playlist building are non-fatal.  A
selected verse whose audio file is missing contributes no lines and is only
recorded as skipped, while all other verses are still processed; when no
silence clip can be obtained (`ensure_silence_mp3` returns `none`) every gap
entry is omitted and each present verse contributes exactly its repeated
audio lines; in both cases the build returns `.ok` with the playlist path. -/
theorem build_ayah_playlist_soft_failures (out_root sp : String)
    (dirFiles : List String) (ffmpegOk : Bool) (repeatN gap_ms : Nat)
    (l : List Nat) (hparse : parse_verses_spec sp = .ok l) :
    (∃ r, build_ayah_playlist out_root dirFiles ffmpegOk (some sp) repeatN gap_ms =
        .ok r ∧
      r.m3u = pathJoin out_root "hifz_ayah.m3u" ∧
      r.lines = "#EXTM3U" :: (l.map (fun a =>
        if mp3Name a ∈ dirFiles then
          ayahLines (pathJoin out_root (mp3Name a))
            (ensure_silence_mp3 out_root dirFiles ffmpegOk gap_ms) gap_ms repeatN
        else [])).flatten ∧
      r.skipped = l.filter (fun a => decide (mp3Name a ∉ dirFiles))) ∧
    (ensure_silence_mp3 out_root dirFiles ffmpegOk gap_ms = none →
      ∃ r, build_ayah_playlist out_root dirFiles ffmpegOk (some sp) repeatN gap_ms =
          .ok r ∧
        r.m3u = pathJoin out_root "hifz_ayah.m3u" ∧
        r.lines = "#EXTM3U" :: (l.map (fun a =>
          if mp3Name a ∈ dirFiles then
            List.replicate repeatN (pathJoin out_root (mp3Name a))
          else [])).flatten) := by
  constructor
  · have hb : build_ayah_playlist out_root dirFiles ffmpegOk (some sp) repeatN gap_ms =
        .ok { m3u := pathJoin out_root "hifz_ayah.m3u"
              lines := "#EXTM3U" :: (l.map (fun a =>
                if mp3Name a ∈ dirFiles then
                  ayahLines (pathJoin out_root (mp3Name a))
                    (ensure_silence_mp3 out_root dirFiles ffmpegOk gap_ms)
                    gap_ms repeatN
                else [])).flatten
              skipped := l.filter (fun a => decide (mp3Name a ∉ dirFiles))
              pointerFile := pathJoin out_root "latest_playlist.txt"
              pointerContents := pathJoin out_root "hifz_ayah.m3u" } := by
      simp only [build_ayah_playlist, hparse, playlistBody_eq]
    exact ⟨_, hb, rfl, rfl, rfl⟩
  · intro hsil
    have hb : build_ayah_playlist out_root dirFiles ffmpegOk (some sp) repeatN gap_ms =
        .ok { m3u := pathJoin out_root "hifz_ayah.m3u"
              lines := "#EXTM3U" :: (l.map (fun a =>
                if mp3Name a ∈ dirFiles then
                  List.replicate repeatN (pathJoin out_root (mp3Name a))
                else [])).flatten
              skipped := l.filter (fun a => decide (mp3Name a ∉ dirFiles))
              pointerFile := pathJoin out_root "latest_playlist.txt"
              pointerContents := pathJoin out_root "hifz_ayah.m3u" } := by
      simp only [build_ayah_playlist, hparse, hsil, playlistBody_eq, ayahLines_none]
    exact ⟨_, hb, rfl, rfl⟩

/-- C7 witness: verse 2 missing from the directory and no silence clip
available (`gap_ms = 1000` but ffmpeg fails): the build still succeeds, verse
1 is processed, verse 2 is skipped, and no silence lines appear. -/
theorem build_ayah_playlist_soft_failures_witness :
    (∃ r, build_ayah_playlist "d" ["001.mp3"] false (some "1,2") 2 1000 = .ok r ∧
      r.m3u = pathJoin "d" "hifz_ayah.m3u" ∧
      r.lines = "#EXTM3U" :: (([1, 2] : List Nat).map (fun a =>
        if mp3Name a ∈ ["001.mp3"] then
          ayahLines (pathJoin "d" (mp3Name a))
            (ensure_silence_mp3 "d" ["001.mp3"] false 1000) 1000 2
        else [])).flatten ∧
      r.skipped = ([1, 2] : List Nat).filter
        (fun a => decide (mp3Name a ∉ ["001.mp3"]))) ∧
    (ensure_silence_mp3 "d" ["001.mp3"] false 1000 = none →
      ∃ r, build_ayah_playlist "d" ["001.mp3"] false (some "1,2") 2 1000 = .ok r ∧
        r.m3u = pathJoin "d" "hifz_ayah.m3u" ∧
        r.lines = "#EXTM3U" :: (([1, 2] : List Nat).map (fun a =>
          if mp3Name a ∈ ["001.mp3"] then
            List.replicate 2 (pathJoin "d" (mp3Name a))
          else [])).flatten) :=
  build_ayah_playlist_soft_failures "d" "1,2" ["001.mp3"] false 2 1000 [1, 2] rfl

theorem run_filter_go_complete (dirFiles : List String) (httpOk : String → Bool)
    (wanted : Option (List Nat)) :
    ∀ verses : List Verse,
      (∀ v ∈ verses, wantedSkip wanted v.verse_number = false →
        mp3Name v.verse_number ∈ dirFiles) →
      run_filter_go dirFiles httpOk false wanted verses =
        .ok ⟨[], (verses.filter
            (fun v => !wantedSkip wanted v.verse_number)).map
          (fun v => (segName v.verse_number, segPairs v.audio.segments))⟩
  | [], _ => rfl
  | v :: rest, h => by
    have ih := run_filter_go_complete dirFiles httpOk wanted rest
      (fun x hx => h x (List.mem_cons_of_mem _ hx))
    cases hsk : wantedSkip wanted v.verse_number with
    | true => simp [run_filter_go, hsk, ih, List.filter_cons]
    | false =>
      have hmem : mp3Name v.verse_number ∈ dirFiles :=
        h v (List.mem_cons_self _ _) hsk
      have hcon : dirFiles.contains (mp3Name v.verse_number) = true := by
        simp [List.contains, List.elem_eq_mem, hmem]
      simp [run_filter_go, hsk, hcon, hmem, ih, List.filter_cons]

/-- C5: a `force = false` run over a directory that already has every
selected verse's audio file performs zero downloads, yet still recomputes
and rewrites the sidecar segment file of every processed verse; and for a
single processed verse the download happens exactly when `force` is set or
the destination file is missing, with the sidecar written either way. -/
theorem run_filter_idempotent (verses : List Verse) (dirFiles : List String)
    (httpOk : String → Bool) (only_verses : Option (List Nat))
    (hdone : ∀ v ∈ verses, wantedSkip only_verses v.verse_number = false →
      mp3Name v.verse_number ∈ dirFiles) :
    run_filter verses dirFiles httpOk false only_verses =
      .ok ⟨[], (verses.filter
          (fun v => !wantedSkip only_verses v.verse_number)).map
        (fun v => (segName v.verse_number, segPairs v.audio.segments))⟩ ∧
    (∀ (force : Bool) (v : Verse),
      wantedSkip only_verses v.verse_number = false →
      httpOk (resolve_audio_url v.audio.url) = true →
      run_filter [v] dirFiles httpOk force only_verses =
        .ok ⟨if force || !dirFiles.contains (mp3Name v.verse_number) then
               [resolve_audio_url v.audio.url]
             else [],
             [(segName v.verse_number, segPairs v.audio.segments)]⟩) := by
  constructor
  · exact run_filter_go_complete dirFiles httpOk only_verses verses hdone
  · intro force v hsk hok
    cases force with
    | true => simp [run_filter, run_filter_go, hsk, hok]
    | false =>
      cases hc : dirFiles.contains (mp3Name v.verse_number) with
      | true =>
        simp [run_filter, run_filter_go, hsk, hc, hok, List.contains,
          List.elem_eq_mem] at *
        simp [hc]
      | false =>
        simp [run_filter, run_filter_go, hsk, hc, hok, List.contains,
          List.elem_eq_mem] at *
        simp [hc, hok]

/-- C5 witness: one selected verse whose file exists, `force = false`: no
download, sidecar rewritten. -/
theorem run_filter_idempotent_witness :
    run_filter [⟨1, 1, "1:1", none, none, none, none, none, none, none,
        ⟨"a.mp3", some [⟨none, none, 0, 10⟩, ⟨none, none, 10, 10⟩]⟩⟩]
      ["001.mp3"] (fun _ => true) false (some [1, 2]) =
      .ok ⟨[], [("001.segments.json", [(0, 10)])]⟩ := by
  have h := (run_filter_idempotent
    [⟨1, 1, "1:1", none, none, none, none, none, none, none,
        ⟨"a.mp3", some [⟨none, none, 0, 10⟩, ⟨none, none, 10, 10⟩]⟩⟩]
    ["001.mp3"] (fun _ => true) (some [1, 2]) (by decide)).1
  simpa using h

theorem get_page_go_waits (resps : Nat → SendResult) (url : String) :
    ∀ d tries : Nat, 5 - tries ≤ d →
      ∃ n, n ≤ 5 - tries ∧
        (get_page_go resps url tries).1 =
          (List.range' tries n).map (fun k => 250 * 2 ^ k) := by
  intro d
  induction d with
  | zero =>
    intro tries h
    refine ⟨0, by omega, ?_⟩
    rw [get_page_go.eq_def]
    split
    · rfl
    · rw [dif_neg (by omega)]
      split
      · rfl
      · split <;> rfl
  | succ d ih =>
    intro tries h
    rw [get_page_go.eq_def]
    split
    · exact ⟨0, by omega, rfl⟩
    · rename_i status body heq
      by_cases hcond : status = 429 ∧ tries < 5
      · obtain ⟨n, hn, hw⟩ := ih (tries + 1) (by omega)
        refine ⟨n + 1, by omega, ?_⟩
        rw [dif_pos hcond, List.range'_succ]
        simp [hw]
      · refine ⟨0, by omega, ?_⟩
        rw [dif_neg hcond]
        split
        · rfl
        · split <;> rfl

theorem get_page_go_429 (resps : Nat → SendResult) (url : String)
    (hall : ∀ i, ∃ b, resps i = SendResult.respond 429 b) :
    ∀ d tries : Nat, 5 - tries ≤ d →
      (get_page_go resps url tries).2 = .error (.httpStatus 429 url) := by
  intro d
  induction d with
  | zero =>
    intro tries h
    obtain ⟨b, hb⟩ := hall tries
    rw [get_page_go.eq_def]
    split
    · rename_i heq
      rw [hb] at heq
      exact absurd heq (by simp)
    · rename_i status body heq
      rw [hb] at heq
      obtain ⟨rfl, rfl⟩ : status = 429 ∧ body = b := by
        constructor <;> injection heq <;> simp_all
      rw [dif_neg (by omega), if_pos (by omega)]
  | succ d ih =>
    intro tries h
    obtain ⟨b, hb⟩ := hall tries
    rw [get_page_go.eq_def]
    split
    · rename_i heq
      rw [hb] at heq
      exact absurd heq (by simp)
    · rename_i status body heq
      rw [hb] at heq
      obtain ⟨rfl, rfl⟩ : status = 429 ∧ body = b := by
        constructor <;> injection heq <;> simp_all
      by_cases hcond : (429 : Nat) = 429 ∧ tries < 5
      · rw [dif_pos hcond]
        simpa using ih (tries + 1) (by omega)
      · rw [dif_neg hcond, if_pos (by omega)]

/-- C2 (amended): in every run of `get_page` the Nth rate-limit retry is
preceded by a wait of exactly `250 * 2^(N-1)` ms and at most 5 retries are
made; when every request keeps answering 429 the budget is exhausted after
waits of 250, 500, 1000, 2000, 4000 ms and the call fails through
`error_for_status` with the generic non-success-status error carrying status
429 — the source has no distinct RateLimited error kind. -/
theorem get_page_backoff_schedule (resps : Nat → SendResult) (url : String) :
    (get_page resps url).1.length ≤ 5 ∧
    (get_page resps url).1 =
      (List.range (get_page resps url).1.length).map (fun k => 250 * 2 ^ k) ∧
    ((∀ i, ∃ b, resps i = SendResult.respond 429 b) →
      get_page resps url =
        ([250, 500, 1000, 2000, 4000], .error (.httpStatus 429 url))) := by
  obtain ⟨n, hn, hw⟩ := get_page_go_waits resps url 5 0 (by omega)
  rw [get_page]
  refine ⟨?_, ?_, ?_⟩
  · rw [hw]
    simpa using hn
  · rw [hw]
    simp [List.range_eq_range']
  · intro hall
    have h2 := get_page_go_429 resps url hall 5 0 (by omega)
    have hwall : (get_page_go resps url 0).1 = [250, 500, 1000, 2000, 4000] := by
      obtain ⟨b0, hb0⟩ := hall 0
      obtain ⟨b1, hb1⟩ := hall 1
      obtain ⟨b2, hb2⟩ := hall 2
      obtain ⟨b3, hb3⟩ := hall 3
      obtain ⟨b4, hb4⟩ := hall 4
      obtain ⟨b5, hb5⟩ := hall 5
      simp [get_page_go, hb0, hb1, hb2, hb3, hb4, hb5]
    have hpair : get_page_go resps url 0 =
        ((get_page_go resps url 0).1, (get_page_go resps url 0).2) := rfl
    rw [hpair, hwall, h2]

/-- C2 counterexample: after the five backoff sleeps the exhausted call fails
with `FetchError.httpStatus 429 url` — the very constructor `get_page` uses
for any other non-success status (a single 500 shown below) — so the failure
is not an error kind distinct from the generic non-success-status error. -/
theorem get_page_rate_limited_counterexample :
    get_page (fun _ => .respond 429 none) "u" =
      ([250, 500, 1000, 2000, 4000], .error (.httpStatus 429 "u")) ∧
    get_page (fun _ => .respond 500 none) "u" =
      ([], .error (.httpStatus 500 "u")) := by
  constructor <;> simp [get_page, get_page_go]

/-- C2 witness: the amended theorem applied to an all-429 response stream. -/
theorem get_page_backoff_schedule_witness :
    get_page (fun _ => SendResult.respond 429 none) "u" =
      ([250, 500, 1000, 2000, 4000], .error (.httpStatus 429 "u")) :=
  (get_page_backoff_schedule (fun _ => SendResult.respond 429 none) "u").2.2
    (fun _ => ⟨none, rfl⟩)

/-- C3: chapter collection starts at page 1 with page size 50 and
accumulates verses in arrival order; a page with an empty verse list
terminates immediately, returning exactly the verses accumulated so far even
when `next_page` is present; a page with verses but no next page (pagination
absent or `next_page` null — the `Option.bind` covers both) also terminates,
returning the accumulator extended with that page's verses; otherwise the
loop continues at the reported next page. -/
theorem fetch_chapter_pagination
    (fetch : String → ChapterQuery → ChapterResponse) (audio chapter : Nat)
    (fuel page : Nat) (acc : List Verse) :
    (fetch_chapter fetch audio chapter fuel =
      fetch_chapter_go fetch audio chapter fuel 1 []) ∧
    ((chapterQuery audio 1).page = some 1 ∧
      (chapterQuery audio 1).per_page = some 50) ∧
    ((fetch (chapterUrl chapter) (chapterQuery audio page)).verses = [] →
      fetch_chapter_go fetch audio chapter (fuel + 1) page acc =
        ([chapterQuery audio page], some acc)) ∧
    ((fetch (chapterUrl chapter) (chapterQuery audio page)).verses ≠ [] →
      (fetch (chapterUrl chapter) (chapterQuery audio page)).pagination.bind
          Pagination.next_page = none →
      fetch_chapter_go fetch audio chapter (fuel + 1) page acc =
        ([chapterQuery audio page],
         some (acc ++
           (fetch (chapterUrl chapter) (chapterQuery audio page)).verses))) ∧
    (∀ next,
      (fetch (chapterUrl chapter) (chapterQuery audio page)).verses ≠ [] →
      (fetch (chapterUrl chapter) (chapterQuery audio page)).pagination.bind
          Pagination.next_page = some next →
      fetch_chapter_go fetch audio chapter (fuel + 1) page acc =
        (chapterQuery audio page ::
           (fetch_chapter_go fetch audio chapter fuel next
             (acc ++
               (fetch (chapterUrl chapter) (chapterQuery audio page)).verses)).1,
         (fetch_chapter_go fetch audio chapter fuel next
           (acc ++
             (fetch (chapterUrl chapter) (chapterQuery audio page)).verses)).2)) := by
  refine ⟨rfl, ⟨rfl, rfl⟩, ?_, ?_, ?_⟩
  · intro hempty
    simp [fetch_chapter_go, hempty]
  · intro hne hnext
    simp [fetch_chapter_go, List.isEmpty_iff, hne, hnext]
  · intro next hne hnext
    simp [fetch_chapter_go, List.isEmpty_iff, hne, hnext]

/-- C3 witness: three one-page upstreams — empty verse list with a next page
present, a nonempty page with no pagination, and a nonempty page pointing at
page 2 — each instantiating one termination/continuation branch. -/
theorem fetch_chapter_pagination_witness :
    (fetch_chapter_go (fun _ _ => ⟨[], some ⟨none, none, some 2, none, none⟩⟩)
        7 1 1 1 [] = ([chapterQuery 7 1], some [])) ∧
    (fetch_chapter_go (fun _ _ => ⟨[sampleVerse], none⟩) 7 1 1 1 [] =
      ([chapterQuery 7 1], some ([] ++ [sampleVerse]))) ∧
    (fetch_chapter_go
        (fun _ _ => ⟨[sampleVerse], some ⟨none, none, some 2, none, none⟩⟩)
        7 1 1 1 [] =
      (chapterQuery 7 1 ::
         (fetch_chapter_go
           (fun _ _ => ⟨[sampleVerse], some ⟨none, none, some 2, none, none⟩⟩)
           7 1 0 2 ([] ++ [sampleVerse])).1,
       (fetch_chapter_go
         (fun _ _ => ⟨[sampleVerse], some ⟨none, none, some 2, none, none⟩⟩)
         7 1 0 2 ([] ++ [sampleVerse])).2)) :=
  ⟨(fetch_chapter_pagination (fun _ _ => ⟨[], some ⟨none, none, some 2, none, none⟩⟩)
      7 1 0 1 []).2.2.1 rfl,
   (fetch_chapter_pagination (fun _ _ => ⟨[sampleVerse], none⟩)
      7 1 0 1 []).2.2.2.1 (by simp) rfl,
   (fetch_chapter_pagination
      (fun _ _ => ⟨[sampleVerse], some ⟨none, none, some 2, none, none⟩⟩)
      7 1 0 1 []).2.2.2.2 2 (by simp) rfl⟩

end Hifzr
